import Mathlib

/-!
Formal model of the sales-dashboard data pipeline in `dashboard_app.py`:
schema validation (`_check_required_columns`), load-time normalization
(`load_data`: `pd.to_numeric(errors="coerce")` on the numeric columns,
`astype(str).str.strip()` on the categorical columns,
`pd.to_datetime(...).dt.tz_localize(None).dt.normalize()` on the date column),
date-range filtering (`apply_date_filter`), KPI aggregation (`compute_kpis`)
and the chart groupings (`chart_category_revenue`, `chart_daily_revenue`).

Machine floats are modelled as exact rationals; a pandas missing value
(NaN / NaT / NA) is an explicit constructor of the per-column cell types.
-/

namespace Dashboard

/-! ### Python `str.strip` -/

/-- Whitespace as recognised by Python's `str.strip()` (the characters that
occur in practice; space, tab, newline, carriage return, form feed, vertical
tab). -/
def isWs (c : Char) : Bool :=
  c = ' ' || c = '\t' || c = '\n' || c = '\r' || c = '\x0b' || c = '\x0c'

/-- Drop leading whitespace, then trailing whitespace: the character-list
semantics of Python's `str.strip()`. -/
def stripChars (l : List Char) : List Char :=
  (((l.dropWhile isWs).reverse.dropWhile isWs)).reverse

/-- Python's `str.strip()` on strings. -/
def pyStrip (s : String) : String :=
  String.mk (stripChars s.data)

/-! ### Decimal digits -/

/-- Value of an ASCII digit character, `none` otherwise. -/
def charToDigit (c : Char) : Option ℕ :=
  if 48 ≤ c.toNat ∧ c.toNat ≤ 57 then some (c.toNat - 48) else none

/-- The ASCII character of a decimal digit. -/
def digitChar (d : ℕ) : Char := Char.ofNat (48 + d)

/-! ### Numeric parsing and rendering

`pd.to_numeric(errors="coerce")` turns each cell into a float when the text is
numeric and NaN otherwise; the model parses an optional sign, an integer part
and at most one fractional part, all exact over `ℚ` (scientific notation and
other exotic float spellings are out of the model's scope and parse to the
missing marker). `pandas.DataFrame.to_csv` renders a float column in plain
`digits.digits` form, which `renderRat` reproduces value-faithfully. -/

/-- Split a character list at a single decimal point; `none` when the text has
two or more points. -/
def splitDot : List Char → Option (List Char × List Char)
  | [] => some ([], [])
  | c :: t =>
    if c = '.' then (if t.contains '.' then none else some ([], t))
    else (splitDot t).map (fun p => (c :: p.1, p.2))

/-- Strip an optional leading sign, returning whether it was a minus. -/
def parseSign (cs : List Char) : Bool × List Char :=
  match cs with
  | [] => (false, [])
  | c :: t => if c = '-' then (true, t) else if c = '+' then (false, t) else (false, c :: t)

/-- Unsigned decimal text: its value scaled to an integer, and the length of
the fractional part. -/
def parseDigits (cs : List Char) : Option (ℕ × ℕ) :=
  match splitDot cs with
  | none => none
  | some (ip, fp) =>
    match ip.mapM charToDigit, fp.mapM charToDigit with
    | some d1, some d2 =>
      if d1 ++ d2 = [] then none
      else some (Nat.ofDigits 10 (d1 ++ d2).reverse, d2.length)
    | _, _ => none

/-- The numeric-text parser behind `pd.to_numeric(errors="coerce")`. -/
def parseRat (s : String) : Option ℚ :=
  match parseDigits (parseSign (stripChars s.data)).2 with
  | none => none
  | some (v, k) =>
    some (Rat.divInt
      (if (parseSign (stripChars s.data)).1 then -(v : ℤ) else (v : ℤ))
      ((10 : ℤ) ^ k))

/-- Little-endian base-ten digits with explicit fuel (structural recursion,
so that renders evaluate by kernel reduction); agrees with `Nat.digits 10`
when the fuel is at least `n`. -/
def natDigitsAux : ℕ → ℕ → List ℕ
  | 0, _ => []
  | _ + 1, 0 => []
  | fuel + 1, n + 1 => (n + 1) % 10 :: natDigitsAux fuel ((n + 1) / 10)

def natDigits (n : ℕ) : List ℕ := natDigitsAux n n

/-- Base-ten digits of `n`, most significant first, zero-padded to width
`k`. -/
def padDigits (k n : ℕ) : List ℕ :=
  (natDigits n ++ List.replicate (k - (natDigits n).length) 0).reverse

/-- Base-ten digits of `n`, most significant first (the digit 0 for zero). -/
def natDigitsBE (n : ℕ) : List ℕ := if n = 0 then [0] else (natDigits n).reverse

/-- Decimal digit characters of `n`, most significant first. -/
def natChars (n : ℕ) : List Char := (natDigitsBE n).map digitChar

/-- Decimal digit characters of `n` left-padded with zeros to width `k`. -/
def padChars (k n : ℕ) : List Char := (padDigits k n).map digitChar

/-- Value-faithful decimal rendering of a rational whose denominator divides a
power of ten (every float a loaded table can hold), as `to_csv` prints float
cells: sign, integer part, point, fractional digits. -/
def renderRatChars (q : ℚ) : List Char :=
  let k := q.den
  let scaled : ℕ := q.num.natAbs * ((10 ^ k) / q.den)
  (if q.num < 0 then ['-'] else [])
    ++ natChars (scaled / 10 ^ k) ++ '.' :: padChars k (scaled % 10 ^ k)

def renderRat (q : ℚ) : String := String.mk (renderRatChars q)

/-! ### Timestamps -/

/-- A pandas timestamp at the granularity the pipeline observes: calendar date
plus seconds within the day (time zones are out of the model's scope; the
source drops them with `tz_localize(None)`). -/
structure Ts where
  y : ℕ
  m : ℕ
  d : ℕ
  sec : ℕ
  deriving DecidableEq, Repr

/-- Gregorian leap year. -/
def isLeap (y : ℕ) : Bool := (y % 4 = 0 && y % 100 ≠ 0) || y % 400 = 0

def daysInMonth (y m : ℕ) : ℕ :=
  if m = 2 then (if isLeap y then 29 else 28)
  else if m = 4 || m = 6 || m = 9 || m = 11 then 30
  else 31

/-- Comparison key: lexicographic on (year, month, day, seconds), as pandas
compares timestamps. -/
def Ts.key (t : Ts) : ℕ := ((t.y * 100 + t.m) * 100 + t.d) * 86400 + t.sec

/-- `dt.normalize()`: truncate to calendar-day granularity. -/
def Ts.norm (t : Ts) : Ts := ⟨t.y, t.m, t.d, 0⟩

def d2 (a b : Char) : Option ℕ :=
  match charToDigit a, charToDigit b with
  | some x, some y => some (10 * x + y)
  | _, _ => none

def d4 (a b c d : Char) : Option ℕ :=
  match charToDigit a, charToDigit b, charToDigit c, charToDigit d with
  | some x, some y, some z, some w => some (1000 * x + 100 * y + 10 * z + w)
  | _, _, _, _ => none

/-- Calendar validity check performed by the datetime parser. -/
def mkDate (y m d sec : ℕ) : Option Ts :=
  if 1 ≤ m ∧ m ≤ 12 ∧ 1 ≤ d ∧ d ≤ daysInMonth y m then some ⟨y, m, d, sec⟩ else none

def parseTime (cs : List Char) : Option ℕ :=
  match cs with
  | [] => some 0
  | [' ', h1, h2, ':', m1, m2, ':', s1, s2] =>
    match d2 h1 h2, d2 m1 m2, d2 s1 s2 with
    | some hh, some mm, some ss =>
      if hh ≤ 23 ∧ mm ≤ 59 ∧ ss ≤ 59 then some (hh * 3600 + mm * 60 + ss) else none
    | _, _, _ => none
  | _ => none

/-- The datetime-text parser behind `pd.to_datetime`: ISO `YYYY-MM-DD` with an
optional `HH:MM:SS` time, validated against the calendar (other spellings
pandas would accept are out of the model's scope). -/
def parseDate (s : String) : Option Ts :=
  match stripChars s.data with
  | y1 :: y2 :: y3 :: y4 :: c1 :: m1 :: m2 :: c2 :: dd1 :: dd2 :: rest =>
    if c1 = '-' ∧ c2 = '-' then
      match d4 y1 y2 y3 y4, d2 m1 m2, d2 dd1 dd2, parseTime rest with
      | some y, some m, some d, some sec => mkDate y m d sec
      | _, _, _, _ => none
    else none
  | _ => none

/-- How `to_csv` prints a day-granularity datetime column: `YYYY-MM-DD`. -/
def renderDateChars (t : Ts) : List Char :=
  padChars 4 t.y ++ '-' :: padChars 2 t.m ++ '-' :: padChars 2 t.d

def renderDate (t : Ts) : String := String.mk (renderDateChars t)

/-! ### Cells and rows -/

/-- A cell of a numeric column: NaN, a float, or (before coercion) raw text. -/
inductive NumCell where
  | na
  | num (q : ℚ)
  | str (s : String)
  deriving DecidableEq, Repr

/-- A cell of a categorical (`string` dtype) column. -/
inductive CatCell where
  | na
  | str (s : String)
  deriving DecidableEq, Repr

/-- A cell of the date column: NaT, a timestamp, or (before parsing) raw
text. -/
inductive DateCell where
  | na
  | ts (t : Ts)
  | str (s : String)
  deriving DecidableEq, Repr

/-- One row of the DataFrame, with the eight required columns of
`dashboard_app.py`. -/
structure GenRow where
  date : DateCell
  category : CatCell
  units : NumCell
  unit_price : NumCell
  region : CatCell
  sales_channel : CatCell
  customer_segment : CatCell
  revenue : NumCell
  deriving DecidableEq, Repr

/-! ### The normalization step of `load_data` (lines 108-117) -/

/-- `pd.to_numeric(df[col], errors="coerce")` on one cell. -/
def toNumeric : NumCell → NumCell
  | .na => .na
  | .num q => .num q
  | .str s =>
    match parseRat s with
    | some q => .num q
    | none => .na

/-- How `astype(str)` prints a missing value of a `string`-dtype column. -/
def naRender : String := "<NA>"

/-- `astype(str)` on one categorical cell. -/
def catRender : CatCell → String
  | .na => naRender
  | .str s => s

/-- `df[c].astype(str).str.strip()` on one cell (`_normalize_categoricals`). -/
def normCat (c : CatCell) : CatCell := .str (pyStrip (catRender c))

/-- `pd.to_datetime(df["date"]).dt.tz_localize(None).dt.normalize()` on one
cell; `none` models the `ValueError` `to_datetime` raises on unparseable
non-missing text. -/
def dateNorm : DateCell → Option DateCell
  | .na => some .na
  | .ts t => some (.ts t.norm)
  | .str s =>
    match parseDate s with
    | some t => some (.ts t.norm)
    | none => none

/-- Lines 108-117 of `load_data` on one row: strict numeric coercion,
categorical normalization, date normalization. `none` models the raise. -/
def normalizeRow (g : GenRow) : Option GenRow :=
  match dateNorm g.date with
  | none => none
  | some dd =>
    some { date := dd, category := normCat g.category, units := toNumeric g.units,
           unit_price := toNumeric g.unit_price, region := normCat g.region,
           sales_channel := normCat g.sales_channel,
           customer_segment := normCat g.customer_segment,
           revenue := toNumeric g.revenue }

/-- The normalization step on a whole table; `none` models the raise, which
aborts the whole load (there is no partial output). -/
def normalizeTable : List GenRow → Option (List GenRow)
  | [] => some []
  | g :: gs =>
    match normalizeRow g, normalizeTable gs with
    | some g2, some gs2 => some (g2 :: gs2)
    | _, _ => none

/-! ### Raw CSV rows and `load_data` -/

/-- A raw CSV cell after `read_csv` tokenization: `none` when the text was
empty or one of the reader's NA tokens. -/
abbrev RawCell := Option String

/-- A raw CSV row with all eight required columns present (the
missing-column case aborts before any of this and is modelled separately by
`check_required_columns`). -/
structure RawRow where
  date : RawCell
  category : RawCell
  units : RawCell
  unit_price : RawCell
  region : RawCell
  sales_channel : RawCell
  customer_segment : RawCell
  revenue : RawCell
  deriving DecidableEq, Repr

/-- The typed view `read_csv` hands to the normalization step: missing cells
are already markers, everything else is raw text. -/
def rawToGen (r : RawRow) : GenRow :=
  { date := r.date.elim DateCell.na DateCell.str,
    category := r.category.elim CatCell.na CatCell.str,
    units := r.units.elim NumCell.na NumCell.str,
    unit_price := r.unit_price.elim NumCell.na NumCell.str,
    region := r.region.elim CatCell.na CatCell.str,
    sales_channel := r.sales_channel.elim CatCell.na CatCell.str,
    customer_segment := r.customer_segment.elim CatCell.na CatCell.str,
    revenue := r.revenue.elim NumCell.na NumCell.str }

/-- `load_data` on a schema-complete source: `read_csv` followed by the
normalization step; `none` models the raise. -/
def load (raws : List RawRow) : Option (List GenRow) :=
  normalizeTable (raws.map rawToGen)

/-- The result of a successful load on one row (what `load` produces for each
input row whenever it does not raise). -/
def loadDateCell (c : RawCell) : DateCell :=
  match c with
  | none => .na
  | some s =>
    match parseDate s with
    | some t => .ts t.norm
    | none => .na

def loadRowOk (r : RawRow) : GenRow :=
  { date := loadDateCell r.date,
    category := normCat (r.category.elim CatCell.na CatCell.str),
    units := toNumeric (r.units.elim NumCell.na NumCell.str),
    unit_price := toNumeric (r.unit_price.elim NumCell.na NumCell.str),
    region := normCat (r.region.elim CatCell.na CatCell.str),
    sales_channel := normCat (r.sales_channel.elim CatCell.na CatCell.str),
    customer_segment := normCat (r.customer_segment.elim CatCell.na CatCell.str),
    revenue := toNumeric (r.revenue.elim NumCell.na NumCell.str) }

/-- Does the date cell of a raw row parse (or is it missing)? `load` raises
exactly when some row fails this. -/
def dateOk (r : RawRow) : Bool :=
  match r.date with
  | none => true
  | some s => (parseDate s).isSome

/-! ### Schema validation (`_check_required_columns`, lines 61-64) -/

def REQUIRED_COLUMNS : List String :=
  ["date", "category", "units", "unit_price", "region", "sales_channel",
   "customer_segment", "revenue"]

/-- `missing = [c for c in REQUIRED_COLUMNS if c not in df.columns]`;
`return (len(missing) == 0, missing)`. -/
def check_required_columns (cols : List String) : Bool × List String :=
  let missing := REQUIRED_COLUMNS.filter (fun c => !(cols.contains c))
  (missing.isEmpty, missing)

/-! ### Date-range filter (`apply_date_filter`, lines 125-128) -/

/-- The `DateRange` dataclass; the source's fields are `start` and `end`
(`end` is a Lean keyword, so the model calls it `stop`). -/
structure DateRange where
  start : Ts
  stop : Ts
  deriving DecidableEq, Repr

/-- One element of `(df["date"] >= dr.start) & (df["date"] <= dr.end)`:
a NaT compares as False (the `.str` case cannot occur in a normalized table
and is given the same value). -/
def dateMask (c : DateCell) (dr : DateRange) : Bool :=
  match c with
  | .ts t => decide (dr.start.key ≤ t.key) && decide (t.key ≤ dr.stop.key)
  | _ => false

def apply_date_filter (rows : List GenRow) (dr : DateRange) : List GenRow :=
  rows.filter (fun r => dateMask r.date dr)

/-! ### Normal-form predicates -/

/-- A numeric cell of a loaded (normalized) table is a float or NaN. -/
def NumCell.normal : NumCell → Bool
  | .str _ => false
  | _ => true

/-- A categorical cell of a loaded table is always a string. -/
def CatCell.normal : CatCell → Bool
  | .str _ => true
  | .na => false

/-- A date cell of a loaded table is a timestamp or NaT. -/
def DateCell.normal : DateCell → Bool
  | .str _ => false
  | _ => true

def rowNormal (g : GenRow) : Bool :=
  g.date.normal && g.category.normal && g.units.normal && g.unit_price.normal &&
    g.region.normal && g.sales_channel.normal && g.customer_segment.normal &&
    g.revenue.normal

def tableNormal (rows : List GenRow) : Bool := rows.all rowNormal

/-! ### KPI aggregation (`compute_kpis`, lines 141-151) -/

def numVal : NumCell → Option ℚ
  | .num q => some q
  | _ => none

def catVal : CatCell → Option String
  | .str s => some s
  | .na => none

def dateVal : DateCell → Option Ts
  | .ts t => some t
  | _ => none

/-- `df["revenue"].dropna()` as a list of values. -/
def revVals (rows : List GenRow) : List ℚ := rows.filterMap (fun r => numVal r.revenue)

def unitVals (rows : List GenRow) : List ℚ := rows.filterMap (fun r => numVal r.units)

def catVals (rows : List GenRow) : List String :=
  rows.filterMap (fun r => catVal r.category)

/-- Python's `int()` on a float: truncation toward zero. -/
def pyInt (q : ℚ) : ℤ := if 0 ≤ q then q.floor else -((-q).floor)

structure KPIs where
  total_revenue : ℤ
  total_units : ℤ
  n_categories : ℕ
  deriving DecidableEq, Repr

def compute_kpis (rows : List GenRow) : KPIs :=
  { total_revenue := pyInt (revVals rows).sum,
    total_units := pyInt (unitVals rows).sum,
    n_categories := (catVals rows).dedup.length }

/-! ### Chart groupings (lines 157-198)

`groupby(..., sort=True)` presents groups in ascending key order; the
subsequent `sort_values` is modelled as a stable sort of that list (numpy's
introsort is stable on the small arrays at issue; `isort` is a stable
insertion sort). -/

def insOrd {α : Type} (le : α → α → Bool) (x : α) : List α → List α
  | [] => [x]
  | y :: ys => if le x y then x :: y :: ys else y :: insOrd le x ys

def isort {α : Type} (le : α → α → Bool) : List α → List α
  | [] => []
  | x :: xs => insOrd le x (isort le xs)

/-- Lexicographic comparison of character lists by code point: how Python
(and hence pandas group keys) orders strings. -/
def charsLE : List Char → List Char → Bool
  | [], _ => true
  | _ :: _, [] => false
  | a :: as, b :: bs =>
    if a.toNat < b.toNat then true
    else if b.toNat < a.toNat then false
    else charsLE as bs

def strLE (a b : String) : Bool := charsLE a.data b.data

/-- Group-key order used by `groupby("category", dropna=False)`: ascending
strings, the NA group last. -/
def catLE : CatCell → CatCell → Bool
  | .str a, .str b => strLE a b
  | .str _, _ => true
  | .na, .na => true
  | .na, .str _ => false

/-- `sort_values("revenue", ascending=False)` comparison on (key, sum)
pairs. -/
def revDescLE (a b : CatCell × ℚ) : Bool := decide (b.2 ≤ a.2)

/-- Sum of `revenue` over the rows of one category group (`sum()` skips
NaN and gives 0.0 on an all-NaN or empty group). -/
def revSumFor (rows : List GenRow) (c : CatCell) : ℚ :=
  ((rows.filter (fun r => r.category == c)).filterMap (fun r => numVal r.revenue)).sum

/-- Lines 162-166: `df.groupby("category", dropna=False, as_index=False)
["revenue"].sum().sort_values("revenue", ascending=False)`. -/
def groupByCategory (rows : List GenRow) : List (CatCell × ℚ) :=
  isort revDescLE
    ((isort catLE ((rows.map (fun r => r.category)).dedup)).map
      (fun c => (c, revSumFor rows c)))

/-- `chart_category_revenue`: `None` (no figure) on an empty table, otherwise
the grouped data handed to the bar chart. -/
def chart_category_revenue (rows : List GenRow) : Option (List (CatCell × ℚ)) :=
  if rows.isEmpty then none else some (groupByCategory rows)

def tsLE (a b : Ts) : Bool := decide (a.key ≤ b.key)

def revSumForDate (rows : List GenRow) (t : Ts) : ℚ :=
  ((rows.filter (fun r => r.date == DateCell.ts t)).filterMap
    (fun r => numVal r.revenue)).sum

/-- Lines 184-188: `df.groupby("date", as_index=False)["revenue"].sum()
.sort_values("date")`; `dropna` defaults to True, so the NaT rows drop. -/
def groupByDate (rows : List GenRow) : List (Ts × ℚ) :=
  isort (fun a b => tsLE a.1 b.1)
    ((isort tsLE ((rows.filterMap (fun r => dateVal r.date)).dedup)).map
      (fun t => (t, revSumForDate rows t)))

/-- `chart_daily_revenue`: `None` (no figure) on an empty table. -/
def chart_daily_revenue (rows : List GenRow) : Option (List (Ts × ℚ)) :=
  if rows.isEmpty then none else some (groupByDate rows)

/-! ### CSV export (`fdf.to_csv(index=False)`, line 327) and re-load -/

/-- The default NA tokens of `pandas.read_csv`: cell texts read back as
missing values. -/
def NA_TOKENS : List String :=
  ["", "#N/A", "#N/A N/A", "#NA", "-1.#IND", "-1.#QNAN", "-NaN", "-nan",
   "1.#IND", "1.#QNAN", "<NA>", "N/A", "NA", "NULL", "NaN", "None", "n/a",
   "nan", "null"]

/-- `read_csv` tokenization of one written cell. -/
def readCell (s : String) : RawCell := if s ∈ NA_TOKENS then none else some s

/-- How `to_csv` prints a date cell (NaT prints as the empty field). -/
def dateOut : DateCell → String
  | .na => ""
  | .ts t => renderDate t
  | .str s => s

/-- How `to_csv` prints a numeric cell (NaN prints as the empty field). -/
def numOut : NumCell → String
  | .na => ""
  | .num q => renderRat q
  | .str s => s

/-- How `to_csv` prints a categorical cell. -/
def catOut : CatCell → String
  | .na => ""
  | .str s => s

/-- Export one normalized row to CSV text and tokenize it back as `read_csv`
would. -/
def exportRow (g : GenRow) : RawRow :=
  { date := readCell (dateOut g.date),
    category := readCell (catOut g.category),
    units := readCell (numOut g.units),
    unit_price := readCell (numOut g.unit_price),
    region := readCell (catOut g.region),
    sales_channel := readCell (catOut g.sales_channel),
    customer_segment := readCell (catOut g.customer_segment),
    revenue := readCell (numOut g.revenue) }

/-- `exportCsv` followed by a fresh `load`. -/
def roundTrip (t : List GenRow) : Option (List GenRow) :=
  load (t.map exportRow)

/-- The timestamp bounds guaranteed by the datetime parser. -/
def tsValid (t : Ts) : Bool :=
  decide (1 ≤ t.m) && decide (t.m ≤ 12) && decide (1 ≤ t.d) &&
    decide (t.d ≤ daysInMonth t.y t.m) && decide (t.y < 10000) &&
    decide (t.sec < 86400)

/-- A categorical cell whose written form `read_csv` would not re-tokenize as
a missing value. -/
def catSafe : CatCell → Bool
  | .str s => !(NA_TOKENS.contains s)
  | .na => true

def rowCatSafe (g : GenRow) : Bool :=
  catSafe g.category && catSafe g.region && catSafe g.sales_channel &&
    catSafe g.customer_segment

/-- The order a stable sort by `le` leaves behind on a list previously
ordered by `P`: strictly before, or tied with the original order kept. -/
def stableOrd {α : Type} (le : α → α → Bool) (P : α → α → Prop) (a b : α) : Prop :=
  le b a = false ∨ (le a b = true ∧ le b a = true ∧ P a b)

/-- The order of the category chart: strictly descending revenue, ties in
ascending category order. -/
def chartOrder (a b : CatCell × ℚ) : Prop :=
  b.2 < a.2 ∨ (a.2 = b.2 ∧ catLE a.1 b.1 = true)

/-! ### Example data for witnesses and counterexamples -/

def exTs : Ts := ⟨2024, 1, 1, 0⟩

def exTs2 : Ts := ⟨2024, 1, 2, 0⟩

/-- First example row of the specification (§8). -/
def exRowA : GenRow :=
  { date := .ts exTs, category := .str "A", units := .num 2, unit_price := .num 50,
    region := .str "east", sales_channel := .str "web", customer_segment := .str "new",
    revenue := .num 100 }

def exRowB : GenRow := { exRowA with category := .str "B", units := .num 1, revenue := .num 50 }

def exRowA2 : GenRow := { exRowA with date := .ts exTs2, units := .num 3, revenue := .num 150 }

/-- The three example rows of the specification (§8). -/
def exampleRows : List GenRow := [exRowA, exRowB, exRowA2]

/-- A normalized row with fractional units and sub-unit revenue (loadable: its
cells parse from "2.5" and "0.9"). -/
def exRowHalf : GenRow := { exRowA with units := .num (5 / 2), revenue := .num (9 / 10) }

/-- Category "B" with the same revenue as `exRowA`, placed first in the
input. -/
def exRowTieB : GenRow := { exRowA with category := .str "B" }

/-- A schema-complete raw source row whose cells all parse. -/
def rawGood : RawRow :=
  { date := some "2024-01-01", category := some "A", units := some "2",
    unit_price := some "50", region := some "east", sales_channel := some "web",
    customer_segment := some "new", revenue := some "100" }

/-- A raw row with an unparseable date and an unparseable numeric cell. -/
def rawBadDate : RawRow := { rawGood with date := some "oops", units := some "x" }

/-- A raw row whose only malformed cell is numeric. -/
def rawBadNum : RawRow := { rawGood with units := some "x" }

/-- A raw row with a missing category. -/
def rawMissingCat : RawRow := { rawGood with category := none }

/-- A raw row whose category is whitespace-only text. -/
def rawWsCat : RawRow := { rawGood with category := some " ", unit_price := some "2.5" }

/-- The value `pd.to_numeric` gives the text "2.5" (5/2 in lowest terms). -/
def ratFiveHalves : ℚ := ⟨5, 2, by norm_num, by norm_num⟩

/-- The normalized row `load` produces from `rawWsCat`: the whitespace-only
category has been stripped to the empty string. -/
def gWs : GenRow :=
  { date := .ts ⟨2024, 1, 1, 0⟩, category := .str "", units := .num 2,
    unit_price := .num ratFiveHalves, region := .str "east",
    sales_channel := .str "web", customer_segment := .str "new",
    revenue := .num 100 }

/-! ## Theorems -/

/-! ### Python strip facts -/

theorem dropWhile_self {p : Char → Bool} :
    ∀ l : List Char, List.dropWhile p (List.dropWhile p l) = List.dropWhile p l := by
  intro l
  induction l with
  | nil => simp [List.dropWhile]
  | cons c t ih =>
    by_cases h : p c
    · simp [List.dropWhile, h, ih]
    · simp [List.dropWhile, h]

theorem dropWhile_head_false {p : Char → Bool} :
    ∀ (l : List Char) (c : Char), (List.dropWhile p l).head? = some c → p c = false := by
  intro l
  induction l with
  | nil => intro c h; simp [List.dropWhile] at h
  | cons a t ih =>
    intro c h
    by_cases hp : p a
    · exact ih c (by simpa [List.dropWhile, hp] using h)
    · simp [List.dropWhile, hp] at h
      subst h
      simpa using hp

theorem dropWhile_eq_self_of_head {p : Char → Bool} (l : List Char)
    (h : ∀ c, l.head? = some c → p c = false) : List.dropWhile p l = l := by
  cases l with
  | nil => simp [List.dropWhile]
  | cons a t =>
    have : p a = false := h a rfl
    simp [List.dropWhile, this]

theorem dropWhile_getLast? {p : Char → Bool} :
    ∀ l : List Char, List.dropWhile p l ≠ [] →
      (List.dropWhile p l).getLast? = l.getLast? := by
  intro l
  induction l with
  | nil => intro h; simp [List.dropWhile] at h
  | cons a t ih =>
    intro h
    by_cases hp : p a
    · have hdt : List.dropWhile p t ≠ [] := by
        simpa [List.dropWhile, hp] using h
      have ht : t ≠ [] := by
        intro he; subst he; simp [List.dropWhile] at hdt
      rw [show List.dropWhile p (a :: t) = List.dropWhile p t by simp [List.dropWhile, hp]]
      rw [ih hdt]
      cases t with
      | nil => exact absurd rfl ht
      | cons b u => simp [List.getLast?_cons_cons]
    · simp [List.dropWhile, hp]

/-- The first character surviving a `strip` is not whitespace. -/
theorem stripChars_head_false (l : List Char) (c : Char)
    (h : (stripChars l).head? = some c) : isWs c = false := by
  unfold stripChars at h
  set A := l.dropWhile isWs with hA
  have hne : A.reverse.dropWhile isWs ≠ [] := by
    intro he
    rw [he] at h
    simp at h
  rw [List.head?_reverse, dropWhile_getLast? _ hne, List.getLast?_reverse] at h
  exact dropWhile_head_false (p := isWs) l c (by rw [← hA]; exact h)

/-- Python `strip` is idempotent at the character-list level. -/
theorem stripChars_idem (l : List Char) : stripChars (stripChars l) = stripChars l := by
  have h1 : List.dropWhile isWs (stripChars l) = stripChars l :=
    dropWhile_eq_self_of_head _ (fun c hc => stripChars_head_false l c hc)
  show (((stripChars l).dropWhile isWs).reverse.dropWhile isWs).reverse = stripChars l
  rw [h1]
  show (((((l.dropWhile isWs).reverse.dropWhile isWs)).reverse).reverse.dropWhile
        isWs).reverse = stripChars l
  rw [List.reverse_reverse, dropWhile_self]
  rfl

/-- Python `strip` is idempotent. -/
theorem pyStrip_idem (s : String) : pyStrip (pyStrip s) = pyStrip s := by
  unfold pyStrip
  simp [stripChars_idem]

/-! ### C2: schema validator -/

/-- C2: the Schema Validator returns true exactly when every required column
is present; the reported missing list contains exactly the required columns
absent from the table and is a sublist of the required-column list (hence in
required-list order, not table order); as a total function it never raises. -/
theorem check_required_columns_correct (cols : List String) :
    ((check_required_columns cols).1 = true ↔ ∀ c ∈ REQUIRED_COLUMNS, c ∈ cols) ∧
    (∀ c, c ∈ (check_required_columns cols).2 ↔ c ∈ REQUIRED_COLUMNS ∧ c ∉ cols) ∧
    (check_required_columns cols).2.Sublist REQUIRED_COLUMNS := by
  refine ⟨?_, ?_, List.filter_sublist _⟩
  · simp [check_required_columns, List.isEmpty_iff, List.filter_eq_nil_iff]
  · intro c
    simp [check_required_columns, List.mem_filter]

/-! ### C3: inclusive date-range filter -/

/-- C3: on a normalized table the Range Filter keeps exactly the rows whose
date is a real timestamp lying in `[start, end]`, missing dates never pass,
and the output is a sublist of the input (relative order preserved). -/
theorem apply_date_filter_correct (rows : List GenRow) (dr : DateRange)
    (_hn : tableNormal rows = true) :
    (apply_date_filter rows dr).Sublist rows ∧
    (∀ r, r ∈ apply_date_filter rows dr ↔
      r ∈ rows ∧ ∃ t, r.date = DateCell.ts t ∧
        dr.start.key ≤ t.key ∧ t.key ≤ dr.stop.key) := by
  refine ⟨List.filter_sublist _, ?_⟩
  intro r
  rw [apply_date_filter, List.mem_filter]
  constructor
  · rintro ⟨hm, hmask⟩
    refine ⟨hm, ?_⟩
    cases hc : r.date with
    | ts t =>
      rw [hc] at hmask
      simp [dateMask] at hmask
      exact ⟨t, rfl, hmask.1, hmask.2⟩
    | na => rw [hc] at hmask; simp [dateMask] at hmask
    | str s => rw [hc] at hmask; simp [dateMask] at hmask
  · rintro ⟨hm, t, hdt, h1, h2⟩
    exact ⟨hm, by simp [dateMask, hdt, h1, h2]⟩

theorem apply_date_filter_correct_witness :
    tableNormal exampleRows = true ∧
    ((apply_date_filter exampleRows ⟨exTs, exTs⟩).Sublist exampleRows ∧
     (∀ r, r ∈ apply_date_filter exampleRows ⟨exTs, exTs⟩ ↔
       r ∈ exampleRows ∧ ∃ t, r.date = DateCell.ts t ∧
         Ts.key exTs ≤ t.key ∧ t.key ≤ Ts.key exTs)) :=
  ⟨by decide, apply_date_filter_correct exampleRows ⟨exTs, exTs⟩ (by decide)⟩

/-! ### C8: reversed range -/

/-- C8: with a reversed range (start strictly after end) the filter returns
the empty table: no bound swapping, no rows, no raise. -/
theorem reversed_range_empty (rows : List GenRow) (dr : DateRange)
    (h : dr.stop.key < dr.start.key) : apply_date_filter rows dr = [] := by
  rw [apply_date_filter, List.filter_eq_nil_iff]
  intro r hr
  cases hc : r.date with
  | ts t => simp [dateMask, hc]; omega
  | na => simp [dateMask, hc]
  | str s => simp [dateMask, hc]

theorem reversed_range_empty_witness :
    Ts.key exTs < Ts.key exTs2 ∧
    apply_date_filter exampleRows ⟨exTs2, exTs⟩ = [] :=
  ⟨by decide, reversed_range_empty exampleRows ⟨exTs2, exTs⟩ (by decide)⟩

/-! ### C6: empty-input behavior -/

/-- C6 (amended): on the empty table `compute_kpis` yields all-zero KPIs and
neither chart function raises; but the chart functions return the no-figure
marker `none` rather than an empty sequence. -/
theorem empty_table_aggregates :
    compute_kpis [] = ⟨0, 0, 0⟩ ∧ chart_category_revenue [] = none ∧
    chart_daily_revenue [] = none := by
  refine ⟨by decide, rfl, rfl⟩

/-- C6 is false as stated: on the empty table the grouping functions return
`None` (no chart), not an empty sequence. -/
theorem empty_table_charts_not_sequences :
    chart_category_revenue [] = none ∧ chart_category_revenue [] ≠ some [] ∧
    chart_daily_revenue [] = none ∧ chart_daily_revenue [] ≠ some [] := by
  exact ⟨rfl, by simp [chart_category_revenue], rfl, by simp [chart_daily_revenue]⟩

/-! ### C4: normalization idempotence -/

theorem toNumeric_idem (c : NumCell) : toNumeric (toNumeric c) = toNumeric c := by
  cases c with
  | na => rfl
  | num q => rfl
  | str s =>
    cases h : parseRat s with
    | none => simp [toNumeric, h]
    | some q => simp [toNumeric, h]

theorem normCat_idem (c : CatCell) : normCat (normCat c) = normCat c := by
  simp [normCat, catRender, pyStrip_idem]

theorem dateNorm_idem (c d : DateCell) (h : dateNorm c = some d) :
    dateNorm d = some d := by
  cases c with
  | na => simp [dateNorm] at h; subst h; rfl
  | ts t => simp [dateNorm] at h; subst h; rfl
  | str s =>
    cases hp : parseDate s with
    | none => simp [dateNorm, hp] at h
    | some t =>
      simp [dateNorm, hp] at h
      subst h
      rfl

theorem normalizeRow_idem (g g2 : GenRow) (h : normalizeRow g = some g2) :
    normalizeRow g2 = some g2 := by
  cases hd : dateNorm g.date with
  | none => rw [normalizeRow, hd] at h; exact absurd h (by simp)
  | some dd =>
    rw [normalizeRow, hd] at h
    simp at h
    subst h
    rw [normalizeRow]
    simp [dateNorm_idem g.date dd hd, toNumeric_idem, normCat_idem]

/-- C4: the normalization step is idempotent, as a Kleisli equation so the
raising case is covered too: running normalization on an already-normalized
table is a no-op, and re-running after a raise still raises. -/
theorem normalize_idem (t : List GenRow) :
    (normalizeTable t).bind normalizeTable = normalizeTable t := by
  induction t with
  | nil => simp [normalizeTable]
  | cons g gs ih =>
    cases hg : normalizeRow g with
    | none => simp [normalizeTable, hg]
    | some g2 =>
      cases hgs : normalizeTable gs with
      | none => simp [normalizeTable, hg, hgs]
      | some gs2 =>
        have h2 : normalizeTable gs2 = some gs2 := by
          rw [hgs] at ih
          simpa using ih
        simp [normalizeTable, hg, hgs, normalizeRow_idem g g2 hg, h2]

/-! ### C10: loaded categoricals are never missing -/

/-- C10: after a load no categorical cell is a missing marker (each is a
string), a missing source category becomes the non-empty literal rendering of
the missing value, and `n_categories` counts such a row as a real category. -/
theorem loaded_categoricals_never_missing (raw : RawRow) :
    (∃ s, (loadRowOk raw).category = CatCell.str s) ∧
    (∃ s, (loadRowOk raw).region = CatCell.str s) ∧
    (∃ s, (loadRowOk raw).sales_channel = CatCell.str s) ∧
    (∃ s, (loadRowOk raw).customer_segment = CatCell.str s) ∧
    (raw.category = none →
      (loadRowOk raw).category = CatCell.str naRender ∧ naRender ≠ "" ∧
      (compute_kpis [loadRowOk raw]).n_categories = 1) := by
  refine ⟨⟨_, rfl⟩, ⟨_, rfl⟩, ⟨_, rfl⟩, ⟨_, rfl⟩, ?_⟩
  intro h
  have hc : (loadRowOk raw).category = CatCell.str naRender := by
    simp [loadRowOk, h, normCat, catRender]
    decide
  refine ⟨hc, by decide, ?_⟩
  simp [compute_kpis, catVals, hc, catVal]

theorem loaded_categoricals_never_missing_witness :
    (loadRowOk rawMissingCat).category = CatCell.str naRender ∧ naRender ≠ "" ∧
    (compute_kpis [loadRowOk rawMissingCat]).n_categories = 1 :=
  (loaded_categoricals_never_missing rawMissingCat).2.2.2.2 rfl

/-! ### C7: KPI totals -/

theorem rat_floor_coe (q : ℚ) : q.floor = ⌊q⌋ := rfl

theorem pyInt_intCast (z : ℤ) : pyInt ((z : ℚ)) = z := by
  unfold pyInt
  by_cases h : (0 : ℚ) ≤ (z : ℚ)
  · rw [if_pos h, rat_floor_coe, Int.floor_intCast]
  · rw [if_neg h, rat_floor_coe, ← Int.cast_neg, Int.floor_intCast]
    omega

/-- C7 (amended): the KPI totals are the toward-zero truncations (Python
`int()`) of the revenue and units sums over non-missing values — hence equal
to those sums whenever they are integral — and on the specification's three
example rows `compute_kpis` yields (300, 6, 2). -/
theorem kpis_truncate_sums (rows : List GenRow) :
    (compute_kpis rows).total_revenue = pyInt (revVals rows).sum ∧
    (compute_kpis rows).total_units = pyInt (unitVals rows).sum ∧
    (∀ z : ℤ, (revVals rows).sum = (z : ℚ) → (compute_kpis rows).total_revenue = z) ∧
    (∀ z : ℤ, (unitVals rows).sum = (z : ℚ) → (compute_kpis rows).total_units = z) ∧
    compute_kpis exampleRows = ⟨300, 6, 2⟩ := by
  refine ⟨rfl, rfl, ?_, ?_, ?_⟩
  · intro z hz
    simp [compute_kpis, hz, pyInt_intCast]
  · intro z hz
    simp [compute_kpis, hz, pyInt_intCast]
  · show KPIs.mk (pyInt (revVals exampleRows).sum) (pyInt (unitVals exampleRows).sum)
      ((catVals exampleRows).dedup.length) = _
    rw [show revVals exampleRows = [100, 50, 150] from rfl,
      show unitVals exampleRows = [2, 1, 3] from rfl,
      show ((catVals exampleRows).dedup.length) = 2 by decide,
      show ([100, 50, 150] : List ℚ).sum = ((300 : ℤ) : ℚ) by norm_num,
      show ([2, 1, 3] : List ℚ).sum = ((6 : ℤ) : ℚ) by norm_num,
      pyInt_intCast, pyInt_intCast]

/-- C7 is false as stated: `int()` truncates toward zero, so on a normalized
(and loadable) table with fractional cells `total_units` differs from the
units sum, and `total_revenue` is not the rounding of 0.9 either. -/
theorem kpis_truncation_counterexample :
    tableNormal [exRowHalf] = true ∧
    (compute_kpis [exRowHalf]).total_units = 2 ∧
    (unitVals [exRowHalf]).sum = 5 / 2 ∧ ((2 : ℚ) ≠ 5 / 2) ∧
    (compute_kpis [exRowHalf]).total_revenue = 0 ∧
    (revVals [exRowHalf]).sum = 9 / 10 := by
  have hu : unitVals [exRowHalf] = [5 / 2] := rfl
  have hr : revVals [exRowHalf] = [9 / 10] := rfl
  have hu2 : (unitVals [exRowHalf]).sum = 5 / 2 := by rw [hu]; norm_num
  have hr2 : (revVals [exRowHalf]).sum = 9 / 10 := by rw [hr]; norm_num
  refine ⟨by decide, ?_, hu2, by norm_num, ?_, hr2⟩
  · show pyInt (unitVals [exRowHalf]).sum = 2
    rw [hu2, pyInt, if_pos (by norm_num), rat_floor_coe]
    norm_num
  · show pyInt (revVals [exRowHalf]).sum = 0
    rw [hr2, pyInt, if_pos (by norm_num), rat_floor_coe]
    norm_num

theorem kpis_truncate_sums_witness :
    (revVals exampleRows).sum = ((300 : ℤ) : ℚ) ∧
    (compute_kpis exampleRows).total_revenue = (300 : ℤ) :=
  ⟨by rw [show revVals exampleRows = [100, 50, 150] from rfl]; norm_num,
   (kpis_truncate_sums exampleRows).2.2.1 300
     (by rw [show revVals exampleRows = [100, 50, 150] from rfl]; norm_num)⟩

/-! ### C1: per-cell degradation at load time -/

theorem normalizeRow_rawToGen_ok (r : RawRow) (h : dateOk r = true) :
    normalizeRow (rawToGen r) = some (loadRowOk r) := by
  cases hd : r.date with
  | none =>
    simp [normalizeRow, rawToGen, hd, dateNorm, loadRowOk, loadDateCell]
  | some s =>
    rw [dateOk, hd] at h
    cases hp : parseDate s with
    | none => simp [hp] at h
    | some t =>
      simp [normalizeRow, rawToGen, hd, dateNorm, hp, loadRowOk, loadDateCell]

theorem normalizeRow_rawToGen_bad (r : RawRow) (h : dateOk r = false) :
    normalizeRow (rawToGen r) = none := by
  cases hd : r.date with
  | none => rw [dateOk, hd] at h; simp at h
  | some s =>
    rw [dateOk, hd] at h
    cases hp : parseDate s with
    | none => simp [normalizeRow, rawToGen, hd, dateNorm, hp]
    | some t => simp [hp] at h

theorem load_ok_of_dates (raws : List RawRow) (h : ∀ r ∈ raws, dateOk r = true) :
    load raws = some (raws.map loadRowOk) := by
  induction raws with
  | nil => rfl
  | cons r rest ih =>
    have hr := normalizeRow_rawToGen_ok r (h r (by simp))
    have hrest : normalizeTable (rest.map rawToGen) = some (rest.map loadRowOk) :=
      ih (fun x hx => h x (by simp [hx]))
    show normalizeTable (rawToGen r :: rest.map rawToGen)
        = some (loadRowOk r :: rest.map loadRowOk)
    rw [normalizeTable, hr, hrest]

theorem load_none_of_bad (raws : List RawRow) (h : ∃ r ∈ raws, dateOk r = false) :
    load raws = none := by
  induction raws with
  | nil => simp at h
  | cons x rest ih =>
    rcases h with ⟨r, hmem, hbad⟩
    rcases List.mem_cons.mp hmem with heq | hmem2
    · subst heq
      have hx := normalizeRow_rawToGen_bad r hbad
      show normalizeTable (rawToGen r :: rest.map rawToGen) = none
      rw [normalizeTable, hx]
    · have hrest : load rest = none := ih ⟨r, hmem2, hbad⟩
      show normalizeTable (rawToGen x :: rest.map rawToGen) = none
      rw [normalizeTable]
      rcases hx : normalizeRow (rawToGen x) with _ | g2
      · rfl
      · rw [show normalizeTable (rest.map rawToGen) = none from hrest]

/-- C1 (amended): when every date cell is missing or parseable the load
succeeds, keeping every row, with each malformed numeric cell degraded to the
missing marker; but one unparseable non-missing date cell makes the whole
load raise (it does not degrade to a missing-date marker). -/
theorem load_degrades_numerics_raises_on_bad_date (raws : List RawRow) :
    ((∀ r ∈ raws, dateOk r = true) → load raws = some (raws.map loadRowOk)) ∧
    ((∃ r ∈ raws, dateOk r = false) → load raws = none) ∧
    (∀ r s, r.units = some s → parseRat s = none → (loadRowOk r).units = NumCell.na) := by
  refine ⟨load_ok_of_dates raws, load_none_of_bad raws, ?_⟩
  intro r s hu hp
  simp [loadRowOk, hu, toNumeric, hp]

/-- C1 is false as stated: a row whose date text cannot be parsed makes the
load raise instead of being retained with a missing date (the same row's
malformed numeric cell never gets the chance to degrade). -/
theorem load_raises_on_unparseable_date :
    parseDate "oops" = none ∧ parseRat "x" = none ∧ load [rawBadDate] = none := by
  decide

theorem load_degrades_witness :
    (∀ r ∈ [rawBadNum], dateOk r = true) ∧
    load [rawBadNum] = some [loadRowOk rawBadNum] ∧
    (loadRowOk rawBadNum).units = NumCell.na :=
  ⟨by decide,
   (load_degrades_numerics_raises_on_bad_date [rawBadNum]).1 (by decide),
   (load_degrades_numerics_raises_on_bad_date [rawBadNum]).2.2 rawBadNum "x" rfl (by decide)⟩

/-! ### C5: category grouping -/

theorem charsLE_total : ∀ as bs : List Char, charsLE as bs = true ∨ charsLE bs as = true := by
  intro as
  induction as with
  | nil => intro bs; left; rfl
  | cons a as ih =>
    intro bs
    cases bs with
    | nil => right; rfl
    | cons b bs2 =>
      by_cases h1 : a.toNat < b.toNat
      · left; simp [charsLE, h1]
      · by_cases h2 : b.toNat < a.toNat
        · right; simp [charsLE, h2]
        · rcases ih bs2 with h | h
          · left; simp [charsLE, h1, h2, h]
          · right; simp [charsLE, h1, h2, h]

theorem charsLE_trans : ∀ as bs cs : List Char,
    charsLE as bs = true → charsLE bs cs = true → charsLE as cs = true := by
  intro as
  induction as with
  | nil => intro bs cs _ _; rfl
  | cons a as ih =>
    intro bs cs hab hbc
    cases bs with
    | nil => simp [charsLE] at hab
    | cons b bs2 =>
      cases cs with
      | nil => simp [charsLE] at hbc
      | cons c cs2 =>
        simp only [charsLE] at hab hbc ⊢
        by_cases h1 : a.toNat < b.toNat
        · by_cases h2 : b.toNat < c.toNat
          · simp [show a.toNat < c.toNat by omega]
          · by_cases h3 : c.toNat < b.toNat
            · simp [h2, h3] at hbc
            · simp [show a.toNat < c.toNat by omega]
        · by_cases h4 : b.toNat < a.toNat
          · simp [h1, h4] at hab
          · by_cases h2 : b.toNat < c.toNat
            · simp [show a.toNat < c.toNat by omega]
            · by_cases h3 : c.toNat < b.toNat
              · simp [h2, h3] at hbc
              · simp [h1, h4] at hab
                simp [h2, h3] at hbc
                simp [show ¬ a.toNat < c.toNat by omega, show ¬ c.toNat < a.toNat by omega]
                exact ih bs2 cs2 hab hbc

theorem catLE_total : ∀ a b : CatCell, catLE a b = true ∨ catLE b a = true := by
  intro a b
  cases a with
  | na => cases b with
    | na => left; rfl
    | str s => right; rfl
  | str s => cases b with
    | na => left; rfl
    | str t => exact charsLE_total s.data t.data

theorem catLE_trans : ∀ a b c : CatCell,
    catLE a b = true → catLE b c = true → catLE a c = true := by
  intro a b c hab hbc
  cases a with
  | na => cases b with
    | na => cases c with
      | na => rfl
      | str t => simp [catLE] at hbc
    | str s => simp [catLE] at hab
  | str s => cases b with
    | na => cases c with
      | na => rfl
      | str t => simp [catLE] at hbc
    | str t => cases c with
      | na => rfl
      | str u => exact charsLE_trans s.data t.data u.data hab hbc

theorem revDescLE_total : ∀ a b : CatCell × ℚ, revDescLE a b = true ∨ revDescLE b a = true := by
  intro a b
  rcases le_total b.2 a.2 with h | h
  · left; simpa [revDescLE] using h
  · right; simpa [revDescLE] using h

theorem revDescLE_trans : ∀ a b c : CatCell × ℚ,
    revDescLE a b = true → revDescLE b c = true → revDescLE a c = true := by
  intro a b c hab hbc
  simp [revDescLE] at hab hbc ⊢
  exact le_trans hbc hab

theorem insOrd_perm {α : Type} (le : α → α → Bool) (x : α) (l : List α) :
    (insOrd le x l).Perm (x :: l) := by
  induction l with
  | nil => exact List.Perm.refl _
  | cons y ys ih =>
    rw [insOrd]
    by_cases h : le x y
    · rw [if_pos h]
    · rw [if_neg h]
      exact (ih.cons y).trans (List.Perm.swap x y ys)

theorem isort_perm {α : Type} (le : α → α → Bool) (l : List α) :
    (isort le l).Perm l := by
  induction l with
  | nil => exact List.Perm.refl _
  | cons x xs ih =>
    rw [isort]
    exact (insOrd_perm le x (isort le xs)).trans (ih.cons x)

theorem pairwise_true {α : Type} (l : List α) : l.Pairwise (fun _ _ => True) := by
  induction l with
  | nil => exact List.Pairwise.nil
  | cons x xs ih => exact List.Pairwise.cons (fun _ _ => trivial) ih

theorem insOrd_pairwise {α : Type} (le : α → α → Bool) (P : α → α → Prop)
    (htrans : ∀ a b c, le a b = true → le b c = true → le a c = true)
    (htot : ∀ a b, le a b = true ∨ le b a = true)
    (x : α) (l : List α)
    (hl : l.Pairwise (stableOrd le P))
    (hx : ∀ y ∈ l, P x y) :
    (insOrd le x l).Pairwise (stableOrd le P) := by
  induction l with
  | nil => simp [insOrd, stableOrd]
  | cons y ys ih =>
    rcases List.pairwise_cons.mp hl with ⟨hy, hys⟩
    rw [insOrd]
    by_cases hxy : le x y = true
    · rw [if_pos hxy]
      apply List.pairwise_cons.mpr
      refine ⟨?_, hl⟩
      intro z hz
      have hPz : P x z := hx z hz
      have hlez : le x z = true := by
        rcases List.mem_cons.mp hz with rfl | hzys
        · exact hxy
        · have hyz : le y z = true := by
            rcases hy z hzys with h | h
            · rcases htot y z with h2 | h2
              · exact h2
              · rw [h] at h2; exact absurd h2 (by simp)
            · exact h.1
          exact htrans x y z hxy hyz
      cases hzx : le z x with
      | false => exact Or.inl hzx
      | true => exact Or.inr ⟨hlez, hzx, hPz⟩
    · rw [if_neg hxy]
      apply List.pairwise_cons.mpr
      constructor
      · intro w hw
        have hw2 : w = x ∨ w ∈ ys := by
          simpa using (insOrd_perm le x ys).mem_iff.mp hw
        rcases hw2 with rfl | hwys
        · left
          cases hb : le w y with
          | false => rfl
          | true => exact absurd hb hxy
        · exact hy w hwys
      · exact ih hys (fun y2 hy2 => hx y2 (List.mem_cons_of_mem y hy2))

theorem isort_pairwise {α : Type} (le : α → α → Bool) (P : α → α → Prop)
    (htrans : ∀ a b c, le a b = true → le b c = true → le a c = true)
    (htot : ∀ a b, le a b = true ∨ le b a = true)
    (l : List α) (hl : l.Pairwise P) :
    (isort le l).Pairwise (stableOrd le P) := by
  induction l with
  | nil => simp [isort]
  | cons x xs ih =>
    rcases List.pairwise_cons.mp hl with ⟨hx, hxs⟩
    rw [isort]
    apply insOrd_pairwise le P htrans htot x (isort le xs) (ih hxs)
    intro y hy
    exact hx y ((isort_perm le xs).mem_iff.mp hy)

/-- The keys produced by `isort catLE` are in ascending `catLE` order. -/
theorem isort_catLE_sorted (l : List CatCell) :
    (isort catLE l).Pairwise (fun a b => catLE a b = true) := by
  have h := isort_pairwise catLE (fun _ _ => True) catLE_trans catLE_total l (pairwise_true l)
  refine h.imp ?_
  rintro a b (hf | ⟨h1, _, _⟩)
  · rcases catLE_total a b with h2 | h2
    · exact h2
    · rw [hf] at h2; exact absurd h2 (by simp)
  · exact h1

/-- C5 (amended): `groupByCategory` has one entry per distinct category value
(a missing category would form its own bucket rather than being dropped),
each entry carries the revenue sum of its category, and the sequence is
ordered by descending revenue sum with ties in ascending category order —
not first-appearance order. -/
theorem groupByCategory_correct (rows : List GenRow) (_hn : tableNormal rows = true) :
    (∀ c, c ∈ (groupByCategory rows).map Prod.fst ↔ c ∈ rows.map (fun r => r.category)) ∧
    ((groupByCategory rows).map Prod.fst).Nodup ∧
    (∀ p ∈ groupByCategory rows, p.2 = revSumFor rows p.1) ∧
    (groupByCategory rows).Pairwise chartOrder := by
  have hperm : (groupByCategory rows).Perm
      ((isort catLE ((rows.map (fun r => r.category)).dedup)).map
        (fun c => (c, revSumFor rows c))) := isort_perm _ _
  have hmapfst : ((isort catLE ((rows.map (fun r => r.category)).dedup)).map
      (fun c => (c, revSumFor rows c))).map Prod.fst
      = isort catLE ((rows.map (fun r => r.category)).dedup) := by
    rw [List.map_map]
    exact List.map_id _
  refine ⟨?_, ?_, ?_, ?_⟩
  · intro c
    rw [(hperm.map Prod.fst).mem_iff, hmapfst,
      (isort_perm catLE _).mem_iff, List.mem_dedup]
  · refine ((hperm.map Prod.fst).nodup_iff).mpr ?_
    rw [hmapfst]
    exact ((isort_perm catLE _).nodup_iff).mpr (List.nodup_dedup _)
  · intro p hp
    have hp2 := hperm.mem_iff.mp hp
    rcases List.mem_map.mp hp2 with ⟨c, _, hc⟩
    rw [← hc]
  · have hX : ((isort catLE ((rows.map (fun r => r.category)).dedup)).map
        (fun c => (c, revSumFor rows c))).Pairwise
        (fun a b => catLE a.1 b.1 = true) := by
      rw [List.pairwise_map]
      exact isort_catLE_sorted _
    have h := isort_pairwise revDescLE (fun a b => catLE a.1 b.1 = true)
      revDescLE_trans revDescLE_total _ hX
    refine h.imp ?_
    rintro a b (hf | ⟨h1, h2, h3⟩)
    · left
      have : ¬ (a.2 ≤ b.2) := by
        intro hle
        have : revDescLE b a = true := by simpa [revDescLE] using hle
        rw [hf] at this; exact absurd this (by simp)
      exact lt_of_not_le this
    · right
      refine ⟨le_antisymm ?_ ?_, h3⟩
      · simpa [revDescLE] using h2
      · simpa [revDescLE] using h1

theorem groupByCategory_correct_witness :
    tableNormal exampleRows = true ∧
    ((∀ c, c ∈ (groupByCategory exampleRows).map Prod.fst ↔
        c ∈ exampleRows.map (fun r => r.category)) ∧
     ((groupByCategory exampleRows).map Prod.fst).Nodup ∧
     (∀ p ∈ groupByCategory exampleRows, p.2 = revSumFor exampleRows p.1) ∧
     (groupByCategory exampleRows).Pairwise chartOrder) :=
  ⟨by decide, groupByCategory_correct exampleRows (by decide)⟩

/-- C5 is false as stated: with category "B" first in the input and tied
revenue, the chart order is the alphabetical (group-key) order A, B — not the
first-appearance order B, A. -/
theorem category_ties_not_first_appearance :
    groupByCategory [exRowTieB, exRowA]
      = [(CatCell.str "A", 100), (CatCell.str "B", 100)] ∧
    [(CatCell.str "A", (100 : ℚ)), (CatCell.str "B", 100)]
      ≠ [(CatCell.str "B", 100), (CatCell.str "A", 100)] := by
  have hA : revSumFor [exRowTieB, exRowA] (CatCell.str "A") = (100 : ℚ) := by
    show ([(100 : ℚ)]).sum = 100
    norm_num
  have hB : revSumFor [exRowTieB, exRowA] (CatCell.str "B") = (100 : ℚ) := by
    show ([(100 : ℚ)]).sum = 100
    norm_num
  have h1 : groupByCategory [exRowTieB, exRowA]
      = isort revDescLE
          [(CatCell.str "A", revSumFor [exRowTieB, exRowA] (CatCell.str "A")),
           (CatCell.str "B", revSumFor [exRowTieB, exRowA] (CatCell.str "B"))] := rfl
  rw [h1, hA, hB]
  constructor
  · show insOrd revDescLE (CatCell.str "A", (100 : ℚ))
        (insOrd revDescLE (CatCell.str "B", (100 : ℚ)) []) = _
    rw [insOrd, insOrd, if_pos (by simp [revDescLE])]
  · simp

/-! ### C9: digit and character lemmas -/

theorem natDigitsAux_eq : ∀ fuel n : ℕ, n ≤ fuel → natDigitsAux fuel n = Nat.digits 10 n := by
  intro fuel
  induction fuel with
  | zero =>
    intro n h
    have hn : n = 0 := by omega
    subst hn
    simp [natDigitsAux]
  | succ f ih =>
    intro n h
    cases n with
    | zero => simp [natDigitsAux]
    | succ m =>
      rw [natDigitsAux]
      rw [ih ((m + 1) / 10) (by
        have := Nat.div_lt_self (Nat.succ_pos m) (by norm_num : 1 < 10)
        omega)]
      rw [← Nat.digits_def' (by norm_num : (1 : ℕ) < 10) (Nat.succ_pos m)]

theorem natDigits_eq (n : ℕ) : natDigits n = Nat.digits 10 n :=
  natDigitsAux_eq n n le_rfl

theorem natDigits_lt (n : ℕ) : ∀ d ∈ natDigits n, d < 10 := by
  rw [natDigits_eq]
  intro d hd
  exact Nat.digits_lt_base (by norm_num) hd

theorem digits_len_le_of_lt_pow {n k : ℕ} (h : n < 10 ^ k) :
    (Nat.digits 10 n).length ≤ k := by
  rcases Nat.eq_zero_or_pos n with rfl | hn
  · simp
  · rw [Nat.digits_len 10 n (by norm_num) hn.ne']
    have := (Nat.lt_pow_iff_log_lt (by norm_num : 1 < 10) hn.ne').mp h
    omega

theorem ofDigits_replicate_zero (k : ℕ) : Nat.ofDigits 10 (List.replicate k 0) = 0 := by
  induction k with
  | zero => rfl
  | succ k ih => simp [List.replicate_succ, Nat.ofDigits_cons, ih]

theorem padDigits_length {k n : ℕ} (h : n < 10 ^ k) : (padDigits k n).length = k := by
  have hlen : (natDigits n).length ≤ k := by
    rw [natDigits_eq]
    exact digits_len_le_of_lt_pow h
  rw [padDigits]
  simp
  omega

theorem padDigits_lt {k n : ℕ} : ∀ d ∈ padDigits k n, d < 10 := by
  intro d hd
  rw [padDigits, List.mem_reverse, List.mem_append] at hd
  rcases hd with hd | hd
  · exact natDigits_lt n d hd
  · have := List.eq_of_mem_replicate hd
    omega

theorem ofDigits_padDigits_reverse (k n : ℕ) :
    Nat.ofDigits 10 ((padDigits k n).reverse) = n := by
  rw [padDigits, List.reverse_reverse, Nat.ofDigits_append, natDigits_eq,
    Nat.ofDigits_digits, ofDigits_replicate_zero]
  simp

theorem natDigitsBE_ne_nil (n : ℕ) : natDigitsBE n ≠ [] := by
  rw [natDigitsBE]
  split
  · simp
  · simp only [ne_eq, List.reverse_eq_nil_iff]
    rw [natDigits_eq]
    simpa [Nat.digits_ne_nil_iff_ne_zero] using (by assumption : ¬ n = 0)

theorem natDigitsBE_lt (n : ℕ) : ∀ d ∈ natDigitsBE n, d < 10 := by
  intro d hd
  rw [natDigitsBE] at hd
  split at hd
  · simp at hd
    omega
  · rw [List.mem_reverse] at hd
    exact natDigits_lt n d hd

theorem ofDigits_natDigitsBE (n : ℕ) : Nat.ofDigits 10 ((natDigitsBE n).reverse) = n := by
  rw [natDigitsBE]
  split
  · simp [Nat.ofDigits]
    omega
  · rw [List.reverse_reverse, natDigits_eq, Nat.ofDigits_digits]

theorem charToDigit_digitChar {d : ℕ} (h : d < 10) : charToDigit (digitChar d) = some d := by
  interval_cases d <;> decide

theorem charToDigit_lt {c : Char} {d : ℕ} (h : charToDigit c = some d) : d < 10 := by
  rw [charToDigit] at h
  split at h
  · simp at h
    omega
  · simp at h

theorem isWs_digitChar {d : ℕ} (h : d < 10) : isWs (digitChar d) = false := by
  interval_cases d <;> decide

theorem digitChar_ne_dot {d : ℕ} (h : d < 10) : digitChar d ≠ '.' := by
  interval_cases d <;> decide

theorem digitChar_ne_minus {d : ℕ} (h : d < 10) : digitChar d ≠ '-' := by
  interval_cases d <;> decide

theorem digitChar_ne_plus {d : ℕ} (h : d < 10) : digitChar d ≠ '+' := by
  interval_cases d <;> decide

theorem mapM_digitChar (ds : List ℕ) (h : ∀ d ∈ ds, d < 10) :
    (ds.map digitChar).mapM charToDigit = some ds := by
  induction ds with
  | nil => rfl
  | cons d ds ih =>
    rw [List.map_cons, List.mapM_cons, charToDigit_digitChar (h d (by simp)),
      ih (fun x hx => h x (by simp [hx]))]
    rfl

theorem head?_mem {l : List Char} {c : Char} (h : l.head? = some c) : c ∈ l := by
  cases l with
  | nil => simp at h
  | cons a t =>
    simp at h
    subst h
    exact List.mem_cons_self a t

theorem stripChars_eq_self (l : List Char) (h : ∀ c ∈ l, isWs c = false) :
    stripChars l = l := by
  have h1 : List.dropWhile isWs l = l :=
    dropWhile_eq_self_of_head l (fun c hc => h c (head?_mem hc))
  have h2 : List.dropWhile isWs l.reverse = l.reverse :=
    dropWhile_eq_self_of_head l.reverse
      (fun c hc => h c (List.mem_reverse.mp (head?_mem hc)))
  rw [stripChars, h1, h2, List.reverse_reverse]

theorem splitDot_append (l1 l2 : List Char) (h1 : ∀ c ∈ l1, c ≠ '.')
    (h2 : l2.contains '.' = false) :
    splitDot (l1 ++ '.' :: l2) = some (l1, l2) := by
  induction l1 with
  | nil =>
    rw [List.nil_append, splitDot, if_pos rfl, h2]
    simp
  | cons c t ih =>
    have hc : c ≠ '.' := h1 c (by simp)
    rw [List.cons_append, splitDot, if_neg hc, ih (fun x hx => h1 x (by simp [hx]))]
    rfl

theorem contains_dot_false (ds : List ℕ) (h : ∀ d ∈ ds, d < 10) :
    (ds.map digitChar).contains '.' = false := by
  induction ds with
  | nil => rfl
  | cons d t ih =>
    have hne : ('.' == digitChar d) = false :=
      beq_eq_false_iff_ne.mpr (Ne.symm (digitChar_ne_dot (h d (by simp))))
    rw [List.map_cons, List.contains_cons, hne, Bool.false_or]
    exact ih (fun x hx => h x (by simp [hx]))

theorem parseSign_digit {d : ℕ} (hd : d < 10) (t : List Char) :
    parseSign (digitChar d :: t) = (false, digitChar d :: t) := by
  rw [parseSign, if_neg (digitChar_ne_minus hd), if_neg (digitChar_ne_plus hd)]

theorem parseSign_minus (t : List Char) : parseSign ('-' :: t) = (true, t) := by
  rw [parseSign, if_pos rfl]

/-- A divisor of any power of ten divides the power of ten of its own
exponent. -/
theorem dvd_ten_pow_self : ∀ d e : ℕ, d ∣ 10 ^ e → d ∣ 10 ^ d := by
  intro d
  induction d using Nat.strong_induction_on with
  | _ d ih =>
    intro e h
    rcases Nat.lt_or_ge d 2 with hd2 | hd2
    · interval_cases d
      · exfalso
        have h0 : (10 : ℕ) ^ e ≠ 0 := by positivity
        exact h0 (Nat.eq_zero_of_zero_dvd h)
      · exact one_dvd _
    · have hgd : Nat.gcd d 10 ∣ d := Nat.gcd_dvd_left d 10
      have hg10 : Nat.gcd d 10 ∣ 10 := Nat.gcd_dvd_right d 10
      rcases Nat.lt_or_ge (Nat.gcd d 10) 2 with hg2 | hg2
      · have hgne : Nat.gcd d 10 ≠ 0 := by
          intro h0
          have h10 := Nat.eq_zero_of_gcd_eq_zero_right h0
          omega
        have hg1 : Nat.gcd d 10 = 1 := by omega
        have hcop : Nat.Coprime d (10 ^ e) := (Nat.Coprime.pow_right e hg1)
        have hd1 : d = 1 := hcop.eq_one_of_dvd h
        omega
      · have hdd : d / Nat.gcd d 10 * Nat.gcd d 10 = d := Nat.div_mul_cancel hgd
        have hd2d : d / Nat.gcd d 10 ∣ d := ⟨Nat.gcd d 10, hdd.symm⟩
        have hd2e : d / Nat.gcd d 10 ∣ 10 ^ e := hd2d.trans h
        have hd2lt : d / Nat.gcd d 10 < d := Nat.div_lt_self (by omega) (by omega)
        have hIH : d / Nat.gcd d 10 ∣ 10 ^ (d / Nat.gcd d 10) :=
          ih (d / Nat.gcd d 10) hd2lt e hd2e
        have hmul : d / Nat.gcd d 10 * Nat.gcd d 10 ∣ 10 ^ (d / Nat.gcd d 10) * 10 :=
          mul_dvd_mul hIH hg10
        rw [hdd, ← pow_succ] at hmul
        exact hmul.trans (pow_dvd_pow 10 (by omega))

/-! ### C9: numeric render/parse round trip -/

theorem parseDigits_render {k ip fp : ℕ} (hfp : fp < 10 ^ k) :
    parseDigits (natChars ip ++ '.' :: padChars k fp)
      = some (fp + 10 ^ k * ip, k) := by
  have hsplit : splitDot (natChars ip ++ '.' :: padChars k fp)
      = some (natChars ip, padChars k fp) := by
    apply splitDot_append
    · intro c hc
      rcases List.mem_map.mp hc with ⟨d, hd, rfl⟩
      exact digitChar_ne_dot (natDigitsBE_lt ip d hd)
    · exact contains_dot_false _ (fun d hd => padDigits_lt d hd)
  rw [parseDigits, hsplit]
  dsimp only
  rw [show natChars ip = (natDigitsBE ip).map digitChar from rfl,
    show padChars k fp = (padDigits k fp).map digitChar from rfl,
    mapM_digitChar _ (natDigitsBE_lt ip), mapM_digitChar _ (fun d hd => padDigits_lt d hd)]
  dsimp only
  rw [if_neg (by simp [natDigitsBE_ne_nil ip])]
  rw [List.reverse_append, Nat.ofDigits_append, ofDigits_padDigits_reverse,
    ofDigits_natDigitsBE, List.length_reverse, padDigits_length hfp]

theorem parseRat_den_dvd {s : String} {q : ℚ} (h : parseRat s = some q) :
    ∃ k : ℕ, q.den ∣ 10 ^ k := by
  unfold parseRat at h
  split at h
  · exact absurd h (by simp)
  · rename_i v k heq
    simp only [Option.some.injEq] at h
    refine ⟨k, ?_⟩
    have hz := Rat.den_dvd
      (if (parseSign (stripChars s.data)).1 then -(v : ℤ) else (v : ℤ)) ((10 : ℤ) ^ k)
    rw [h] at hz
    have h10 : ((10 : ℤ)) ^ k = ((10 ^ k : ℕ) : ℤ) := by push_cast; ring
    rw [h10] at hz
    exact_mod_cast hz

/-- The exact value identity behind the rendered decimal. -/
theorem divInt_value (q : ℚ) (c : ℕ) (hc0 : c ≠ 0) (hck : c * q.den = 10 ^ q.den) :
    Rat.divInt (q.num * (c : ℤ)) ((10 : ℤ) ^ q.den) = q := by
  rw [Rat.divInt_eq_div]
  have h10 : ((10 : ℚ)) ^ q.den = (c : ℚ) * (q.den : ℚ) := by
    have hcast := congrArg (fun n : ℕ => (n : ℚ)) hck
    push_cast at hcast
    rw [← hcast]
  push_cast
  rw [h10, mul_comm ((q.num : ℚ)) ((c : ℚ)),
    mul_div_mul_left _ _ (by exact_mod_cast hc0 : ((c : ℚ)) ≠ 0), Rat.num_div_den]

theorem parseRat_render_of_dvd (q : ℚ) (hdvd : q.den ∣ 10 ^ q.den) :
    parseRat (renderRat q) = some q := by
  have hden0 : q.den ≠ 0 := q.den_nz
  have hck : 10 ^ q.den / q.den * q.den = 10 ^ q.den := Nat.div_mul_cancel hdvd
  have hc0 : 10 ^ q.den / q.den ≠ 0 := by
    intro h0
    rw [h0, zero_mul] at hck
    exact absurd hck.symm (by positivity)
  have hscaled : q.num.natAbs * (10 ^ q.den / q.den)
      = 10 ^ q.den * (q.num.natAbs * (10 ^ q.den / q.den) / 10 ^ q.den)
        + q.num.natAbs * (10 ^ q.den / q.den) % 10 ^ q.den :=
    (Nat.div_add_mod _ _).symm
  have hfplt : q.num.natAbs * (10 ^ q.den / q.den) % 10 ^ q.den < 10 ^ q.den :=
    Nat.mod_lt _ (by positivity)
  have hnws : ∀ ch ∈ renderRatChars q, isWs ch = false := by
    intro ch hch
    rw [renderRatChars, List.mem_append, List.mem_append] at hch
    rcases hch with (hch | hch) | hch
    · by_cases hn : q.num < 0
      · rw [if_pos hn] at hch
        simp at hch
        subst hch
        decide
      · rw [if_neg hn] at hch
        simp at hch
    · rcases List.mem_map.mp hch with ⟨d, hd, rfl⟩
      exact isWs_digitChar (natDigitsBE_lt _ d hd)
    · rcases List.mem_cons.mp hch with rfl | hch
      · decide
      · rcases List.mem_map.mp hch with ⟨d, hd, rfl⟩
        exact isWs_digitChar (padDigits_lt d hd)
  have hdata : stripChars (String.mk (renderRatChars q)).data = renderRatChars q :=
    stripChars_eq_self _ hnws
  rw [renderRat, parseRat, hdata]
  by_cases hneg : q.num < 0
  · have hchars : renderRatChars q
        = '-' :: (natChars (q.num.natAbs * (10 ^ q.den / q.den) / 10 ^ q.den)
            ++ '.' :: padChars q.den (q.num.natAbs * (10 ^ q.den / q.den) % 10 ^ q.den)) := by
      rw [renderRatChars, if_pos hneg]
      rfl
    rw [hchars, parseSign_minus, parseDigits_render hfplt]
    dsimp only
    have hsc : q.num.natAbs * (10 ^ q.den / q.den) % 10 ^ q.den
        + 10 ^ q.den * (q.num.natAbs * (10 ^ q.den / q.den) / 10 ^ q.den)
        = q.num.natAbs * (10 ^ q.den / q.den) := by omega
    have hnum : -(((q.num.natAbs * (10 ^ q.den / q.den) % 10 ^ q.den
        + 10 ^ q.den * (q.num.natAbs * (10 ^ q.den / q.den) / 10 ^ q.den) : ℕ)) : ℤ)
        = q.num * ((10 ^ q.den / q.den : ℕ) : ℤ) := by
      rw [hsc, Nat.cast_mul]
      have habs : ((q.num.natAbs : ℤ)) = -q.num := by omega
      rw [habs]
      ring
    rw [hnum, if_pos rfl]
    rw [divInt_value q _ hc0 hck]
  · have hchars : renderRatChars q
        = natChars (q.num.natAbs * (10 ^ q.den / q.den) / 10 ^ q.den)
            ++ '.' :: padChars q.den (q.num.natAbs * (10 ^ q.den / q.den) % 10 ^ q.den) := by
      rw [renderRatChars, if_neg hneg]
      rfl
    have hhead : ∃ d t, d < 10 ∧ natChars (q.num.natAbs * (10 ^ q.den / q.den) / 10 ^ q.den)
        ++ '.' :: padChars q.den (q.num.natAbs * (10 ^ q.den / q.den) % 10 ^ q.den)
        = digitChar d :: t := by
      rcases hbe : natDigitsBE (q.num.natAbs * (10 ^ q.den / q.den) / 10 ^ q.den) with _ | ⟨d, ds⟩
      · exact absurd hbe (natDigitsBE_ne_nil _)
      · refine ⟨d, ds.map digitChar
            ++ '.' :: padChars q.den (q.num.natAbs * (10 ^ q.den / q.den) % 10 ^ q.den),
            ?_, ?_⟩
        · exact natDigitsBE_lt _ d (by rw [hbe]; simp)
        · rw [show natChars (q.num.natAbs * (10 ^ q.den / q.den) / 10 ^ q.den)
            = (natDigitsBE (q.num.natAbs * (10 ^ q.den / q.den) / 10 ^ q.den)).map digitChar
            from rfl, hbe]
          rfl
    rcases hhead with ⟨d, t, hd10, hht⟩
    rw [hchars, hht, parseSign_digit hd10, ← hht, parseDigits_render hfplt]
    dsimp only
    have hsc : q.num.natAbs * (10 ^ q.den / q.den) % 10 ^ q.den
        + 10 ^ q.den * (q.num.natAbs * (10 ^ q.den / q.den) / 10 ^ q.den)
        = q.num.natAbs * (10 ^ q.den / q.den) := by omega
    have hnum : (((q.num.natAbs * (10 ^ q.den / q.den) % 10 ^ q.den
        + 10 ^ q.den * (q.num.natAbs * (10 ^ q.den / q.den) / 10 ^ q.den) : ℕ)) : ℤ)
        = q.num * ((10 ^ q.den / q.den : ℕ) : ℤ) := by
      rw [hsc, Nat.cast_mul]
      have habs : ((q.num.natAbs : ℤ)) = q.num := by omega
      rw [habs]
    rw [hnum, if_neg (by simp : ¬ false = true)]
    rw [divInt_value q _ hc0 hck]

theorem parseRat_render {s : String} {q : ℚ} (h : parseRat s = some q) :
    parseRat (renderRat q) = some q := by
  rcases parseRat_den_dvd h with ⟨k, hk⟩
  exact parseRat_render_of_dvd q (dvd_ten_pow_self q.den k hk)

/-! ### C9: date render/parse round trip -/

theorem daysInMonth_le (y m : ℕ) : daysInMonth y m ≤ 31 := by
  unfold daysInMonth
  split
  · split <;> omega
  · split <;> omega

theorem d4_lt {a b c e : Char} {y : ℕ} (h : d4 a b c e = some y) : y < 10000 := by
  unfold d4 at h
  split at h
  · rename_i x1 x2 x3 x4 h1 h2 h3 h4
    simp only [Option.some.injEq] at h
    have := charToDigit_lt h1
    have := charToDigit_lt h2
    have := charToDigit_lt h3
    have := charToDigit_lt h4
    omega
  · exact absurd h (by simp)

theorem parseTime_lt {cs : List Char} {sec : ℕ} (h : parseTime cs = some sec) :
    sec < 86400 := by
  unfold parseTime at h
  split at h
  · simp only [Option.some.injEq] at h
    omega
  · split at h
    · split at h
      · rename_i hcond
        simp only [Option.some.injEq] at h
        omega
      · exact absurd h (by simp)
    · exact absurd h (by simp)
  · exact absurd h (by simp)

theorem parseDate_valid {s : String} {t : Ts} (h : parseDate s = some t) :
    tsValid t = true := by
  unfold parseDate at h
  split at h
  · split at h
    · split at h
      · rename_i y m d sec hy hm hd hsec
        unfold mkDate at h
        split at h
        · rename_i hcond
          simp only [Option.some.injEq] at h
          subst h
          have h1 := d4_lt hy
          have h2 := parseTime_lt hsec
          simp only [tsValid, Bool.and_eq_true, decide_eq_true_eq]
          refine ⟨⟨⟨⟨⟨?_, ?_⟩, ?_⟩, ?_⟩, ?_⟩, ?_⟩ <;> simp_all
        · exact absurd h (by simp)
      · exact absurd h (by simp)
    · exact absurd h (by simp)
  · exact absurd h (by simp)

theorem exists_list4 {l : List ℕ} (h : l.length = 4) : ∃ a b c d, l = [a, b, c, d] := by
  rcases l with _ | ⟨a, _ | ⟨b, _ | ⟨c, _ | ⟨d, rest⟩⟩⟩⟩ <;> simp at h
  subst h
  exact ⟨a, b, c, d, rfl⟩

theorem exists_list2 {l : List ℕ} (h : l.length = 2) : ∃ a b, l = [a, b] := by
  rcases l with _ | ⟨a, _ | ⟨b, rest⟩⟩ <;> simp at h
  subst h
  exact ⟨a, b, rfl⟩

theorem d4_digitChar {a b c d : ℕ} (ha : a < 10) (hb : b < 10) (hc : c < 10)
    (hd : d < 10) :
    d4 (digitChar a) (digitChar b) (digitChar c) (digitChar d)
      = some (1000 * a + 100 * b + 10 * c + d) := by
  unfold d4
  rw [charToDigit_digitChar ha, charToDigit_digitChar hb, charToDigit_digitChar hc,
    charToDigit_digitChar hd]

theorem d2_digitChar {a b : ℕ} (ha : a < 10) (hb : b < 10) :
    d2 (digitChar a) (digitChar b) = some (10 * a + b) := by
  unfold d2
  rw [charToDigit_digitChar ha, charToDigit_digitChar hb]

theorem parseDate_render {t : Ts} (hv : tsValid t = true) (hs : t.sec = 0) :
    parseDate (renderDate t) = some t := by
  have hvv : 1 ≤ t.m ∧ t.m ≤ 12 ∧ 1 ≤ t.d ∧ t.d ≤ daysInMonth t.y t.m ∧
      t.y < 10000 ∧ t.sec < 86400 := by
    simpa [tsValid, Bool.and_eq_true, decide_eq_true_eq, and_assoc] using hv
  have hdm := daysInMonth_le t.y t.m
  rcases exists_list4 (padDigits_length (show t.y < 10 ^ 4 by omega)) with ⟨a, b, c, d, hyd⟩
  rcases exists_list2 (padDigits_length (show t.m < 10 ^ 2 by omega)) with ⟨e, f, hmd⟩
  rcases exists_list2 (padDigits_length (show t.d < 10 ^ 2 by omega)) with ⟨g, h2, hdd⟩
  have ha : a < 10 := padDigits_lt a (by rw [hyd]; simp)
  have hb : b < 10 := padDigits_lt b (by rw [hyd]; simp)
  have hc : c < 10 := padDigits_lt c (by rw [hyd]; simp)
  have hd : d < 10 := padDigits_lt d (by rw [hyd]; simp)
  have he : e < 10 := padDigits_lt e (by rw [hmd]; simp)
  have hf : f < 10 := padDigits_lt f (by rw [hmd]; simp)
  have hg : g < 10 := padDigits_lt g (by rw [hdd]; simp)
  have hh : h2 < 10 := padDigits_lt h2 (by rw [hdd]; simp)
  have hchars : renderDateChars t
      = digitChar a :: digitChar b :: digitChar c :: digitChar d :: '-'
        :: digitChar e :: digitChar f :: '-' :: digitChar g :: digitChar h2 :: [] := by
    rw [renderDateChars, show padChars 4 t.y = (padDigits 4 t.y).map digitChar from rfl,
      hyd, show padChars 2 t.m = (padDigits 2 t.m).map digitChar from rfl, hmd,
      show padChars 2 t.d = (padDigits 2 t.d).map digitChar from rfl, hdd]
    rfl
  have hnws : ∀ ch ∈ renderDateChars t, isWs ch = false := by
    rw [hchars]
    intro ch hch
    simp only [List.mem_cons, List.not_mem_nil, or_false] at hch
    rcases hch with rfl | rfl | rfl | rfl | rfl | rfl | rfl | rfl | rfl | rfl
    · exact isWs_digitChar ha
    · exact isWs_digitChar hb
    · exact isWs_digitChar hc
    · exact isWs_digitChar hd
    · decide
    · exact isWs_digitChar he
    · exact isWs_digitChar hf
    · decide
    · exact isWs_digitChar hg
    · exact isWs_digitChar hh
  rw [renderDate, parseDate,
    show stripChars (String.mk (renderDateChars t)).data = renderDateChars t from
      stripChars_eq_self _ hnws, hchars]
  dsimp only
  rw [if_pos ⟨rfl, rfl⟩]
  rw [d4_digitChar ha hb hc hd, d2_digitChar he hf, d2_digitChar hg hh]
  dsimp only [parseTime]
  have hyv : 1000 * a + 100 * b + 10 * c + d = t.y := by
    have hof := ofDigits_padDigits_reverse 4 t.y
    rw [hyd] at hof
    simp [Nat.ofDigits_cons, Nat.ofDigits_nil] at hof
    omega
  have hmv : 10 * e + f = t.m := by
    have hof := ofDigits_padDigits_reverse 2 t.m
    rw [hmd] at hof
    simp [Nat.ofDigits_cons, Nat.ofDigits_nil] at hof
    omega
  have hdv : 10 * g + h2 = t.d := by
    have hof := ofDigits_padDigits_reverse 2 t.d
    rw [hdd] at hof
    simp [Nat.ofDigits_cons, Nat.ofDigits_nil] at hof
    omega
  rw [hyv, hmv, hdv, mkDate, if_pos (by tauto)]
  cases t with
  | mk ty tm td tsec =>
    simp only at hs
    subst hs
    rfl

/-! ### C9: NA tokens never parse -/

theorem na_tokens_parseRat : ∀ s ∈ NA_TOKENS, parseRat s = none := by decide

theorem na_tokens_parseDate : ∀ s ∈ NA_TOKENS, parseDate s = none := by decide

/-! ### C9: per-cell round trips -/

theorem numOut_round {c : NumCell}
    (h : c = NumCell.na ∨ ∃ s, c = toNumeric (NumCell.str s)) :
    toNumeric ((readCell (numOut c)).elim NumCell.na NumCell.str) = c := by
  have hna : toNumeric ((readCell "").elim NumCell.na NumCell.str) = NumCell.na := by
    rw [show readCell "" = none from by decide]
    rfl
  rcases h with rfl | ⟨s, rfl⟩
  · exact hna
  · cases hp : parseRat s with
    | none =>
      rw [show toNumeric (NumCell.str s) = NumCell.na from by simp [toNumeric, hp]]
      exact hna
    | some q =>
      rw [show toNumeric (NumCell.str s) = NumCell.num q from by simp [toNumeric, hp]]
      have hpr : parseRat (renderRat q) = some q := parseRat_render hp
      have hmem : renderRat q ∉ NA_TOKENS := by
        intro hm
        rw [na_tokens_parseRat _ hm] at hpr
        exact absurd hpr (by simp)
      rw [show numOut (NumCell.num q) = renderRat q from rfl, readCell, if_neg hmem]
      simp [toNumeric, hpr]

theorem catOut_round {c : CatCell} (h : ∃ x, c = normCat x)
    (hsafe : catSafe c = true) :
    normCat ((readCell (catOut c)).elim CatCell.na CatCell.str) = c := by
  rcases h with ⟨x, rfl⟩
  have hcontains : NA_TOKENS.contains (pyStrip (catRender x)) = false := by
    have h1 : catSafe (CatCell.str (pyStrip (catRender x))) = true := hsafe
    simpa [catSafe] using h1
  have hmem : pyStrip (catRender x) ∉ NA_TOKENS := by
    intro hm
    have h2 : NA_TOKENS.contains (pyStrip (catRender x)) = true := by
      simpa using hm
    rw [h2] at hcontains
    exact absurd hcontains (by simp)
  rw [show catOut (normCat x) = pyStrip (catRender x) from rfl, readCell, if_neg hmem]
  exact normCat_idem x

theorem dateOut_round {c : DateCell}
    (h : c = DateCell.na ∨ ∃ s u, parseDate s = some u ∧ c = DateCell.ts u.norm) :
    dateNorm ((readCell (dateOut c)).elim DateCell.na DateCell.str) = some c := by
  rcases h with rfl | ⟨s, u, hp, rfl⟩
  · rw [show dateOut DateCell.na = "" from rfl, show readCell "" = none from by decide]
    rfl
  · have hval : tsValid u = true := parseDate_valid hp
    have hvn : tsValid u.norm = true := by
      simp only [tsValid, Ts.norm, Bool.and_eq_true, decide_eq_true_eq] at hval ⊢
      omega
    have hrd : parseDate (renderDate u.norm) = some u.norm := parseDate_render hvn rfl
    have hmem : renderDate u.norm ∉ NA_TOKENS := by
      intro hm
      rw [na_tokens_parseDate _ hm] at hrd
      exact absurd hrd (by simp)
    rw [show dateOut (DateCell.ts u.norm) = renderDate u.norm from rfl, readCell,
      if_neg hmem]
    show dateNorm (DateCell.str (renderDate u.norm)) = some (DateCell.ts u.norm)
    simp [dateNorm, hrd]
    rfl

/-! ### C9: per-row and whole-table round trip -/

theorem rawNum_shape (c : RawCell) :
    toNumeric (c.elim NumCell.na NumCell.str) = NumCell.na ∨
      ∃ s, toNumeric (c.elim NumCell.na NumCell.str) = toNumeric (NumCell.str s) := by
  cases c with
  | none => left; rfl
  | some s => right; exact ⟨s, rfl⟩

theorem rawDate_shape (c : RawCell) {dd : DateCell}
    (h : dateNorm (c.elim DateCell.na DateCell.str) = some dd) :
    dd = DateCell.na ∨ ∃ s u, parseDate s = some u ∧ dd = DateCell.ts u.norm := by
  cases c with
  | none =>
    simp [dateNorm] at h
    left
    exact h.symm
  | some s =>
    cases hp : parseDate s with
    | none => simp [dateNorm, hp] at h
    | some u =>
      simp [dateNorm, hp] at h
      right
      exact ⟨s, u, hp, h.symm⟩

theorem exportRow_round {r : RawRow} {g : GenRow}
    (h : normalizeRow (rawToGen r) = some g) (hsafe : rowCatSafe g = true) :
    normalizeRow (rawToGen (exportRow g)) = some g := by
  rcases hdn : dateNorm (rawToGen r).date with _ | dd
  · rw [normalizeRow, hdn] at h
    exact absurd h (by simp)
  · rw [normalizeRow, hdn] at h
    simp only [Option.some.injEq] at h
    have hdg : g.date = dd := by rw [← h]
    have hcg : g.category = normCat (rawToGen r).category := by rw [← h]
    have hrg : g.region = normCat (rawToGen r).region := by rw [← h]
    have hscg : g.sales_channel = normCat (rawToGen r).sales_channel := by rw [← h]
    have hcsg : g.customer_segment = normCat (rawToGen r).customer_segment := by rw [← h]
    have hug : g.units = toNumeric (rawToGen r).units := by rw [← h]
    have hupg : g.unit_price = toNumeric (rawToGen r).unit_price := by rw [← h]
    have hrvg : g.revenue = toNumeric (rawToGen r).revenue := by rw [← h]
    simp only [rowCatSafe, Bool.and_eq_true] at hsafe
    have hdate : dateNorm ((readCell (dateOut g.date)).elim DateCell.na DateCell.str)
        = some g.date := by
      apply dateOut_round
      rw [hdg]
      exact rawDate_shape r.date (by rw [show (rawToGen r).date
        = r.date.elim DateCell.na DateCell.str from rfl] at hdn; exact hdn)
    have hcat : normCat ((readCell (catOut g.category)).elim CatCell.na CatCell.str)
        = g.category := catOut_round ⟨(rawToGen r).category, hcg⟩ hsafe.1.1.1
    have hreg : normCat ((readCell (catOut g.region)).elim CatCell.na CatCell.str)
        = g.region := catOut_round ⟨(rawToGen r).region, hrg⟩ hsafe.1.1.2
    have hsc : normCat ((readCell (catOut g.sales_channel)).elim CatCell.na CatCell.str)
        = g.sales_channel := catOut_round ⟨(rawToGen r).sales_channel, hscg⟩ hsafe.1.2
    have hcs : normCat ((readCell (catOut g.customer_segment)).elim CatCell.na
        CatCell.str) = g.customer_segment :=
      catOut_round ⟨(rawToGen r).customer_segment, hcsg⟩ hsafe.2
    have hun : toNumeric ((readCell (numOut g.units)).elim NumCell.na NumCell.str)
        = g.units := by
      apply numOut_round
      rw [hug]
      exact rawNum_shape r.units
    have hup : toNumeric ((readCell (numOut g.unit_price)).elim NumCell.na NumCell.str)
        = g.unit_price := by
      apply numOut_round
      rw [hupg]
      exact rawNum_shape r.unit_price
    have hrv : toNumeric ((readCell (numOut g.revenue)).elim NumCell.na NumCell.str)
        = g.revenue := by
      apply numOut_round
      rw [hrvg]
      exact rawNum_shape r.revenue
    rw [normalizeRow, show (rawToGen (exportRow g)).date
      = (readCell (dateOut g.date)).elim DateCell.na DateCell.str from rfl, hdate]
    refine congrArg some ?_
    show ({ date := g.date,
            category := normCat ((readCell (catOut g.category)).elim CatCell.na
              CatCell.str),
            units := toNumeric ((readCell (numOut g.units)).elim NumCell.na
              NumCell.str),
            unit_price := toNumeric ((readCell (numOut g.unit_price)).elim NumCell.na
              NumCell.str),
            region := normCat ((readCell (catOut g.region)).elim CatCell.na
              CatCell.str),
            sales_channel := normCat ((readCell (catOut g.sales_channel)).elim
              CatCell.na CatCell.str),
            customer_segment := normCat ((readCell (catOut g.customer_segment)).elim
              CatCell.na CatCell.str),
            revenue := toNumeric ((readCell (numOut g.revenue)).elim NumCell.na
              NumCell.str) } : GenRow) = g
    rw [hcat, hreg, hsc, hcs, hun, hup, hrv]

/-- C9 (amended): the export/re-load round trip reproduces the loaded table
whenever no categorical value of the loaded table is empty or one of the CSV
reader's NA tokens; dates and numerics always survive the trip. -/
theorem export_load_round_trip (raws : List RawRow) (t : List GenRow)
    (hl : load raws = some t) (hs : t.all rowCatSafe = true) :
    roundTrip t = some t := by
  induction raws generalizing t with
  | nil =>
    rw [show load ([] : List RawRow) = some [] from rfl] at hl
    simp only [Option.some.injEq] at hl
    subst hl
    rfl
  | cons r rest ih =>
    rw [show load (r :: rest) = normalizeTable (rawToGen r :: rest.map rawToGen)
      from rfl, normalizeTable] at hl
    rcases h1 : normalizeRow (rawToGen r) with _ | g
    · rw [h1] at hl
      exact absurd hl (by simp)
    · rcases h2 : normalizeTable (rest.map rawToGen) with _ | t2
      · rw [h1, h2] at hl
        exact absurd hl (by simp)
      · rw [h1, h2] at hl
        simp only [Option.some.injEq] at hl
        subst hl
        simp only [List.all_cons, Bool.and_eq_true] at hs
        have hg := exportRow_round h1 hs.1
        have ht2 : roundTrip t2 = some t2 := ih t2 h2 hs.2
        rw [show roundTrip (g :: t2)
          = normalizeTable (rawToGen (exportRow g) :: (t2.map exportRow).map rawToGen)
          from rfl, normalizeTable, hg,
          show normalizeTable ((t2.map exportRow).map rawToGen) = roundTrip t2
          from rfl, ht2]

theorem export_load_round_trip_witness :
    load [rawGood] = some [loadRowOk rawGood] ∧
    ([loadRowOk rawGood].all rowCatSafe = true) ∧
    roundTrip [loadRowOk rawGood] = some [loadRowOk rawGood] :=
  ⟨by decide, by decide,
   export_load_round_trip [rawGood] [loadRowOk rawGood] (by decide) (by decide)⟩

/-- C9 is false as stated: a source row whose category is whitespace-only
loads to the empty-string category, which the CSV writer emits as an empty
field and `read_csv` re-tokenizes as missing, so the re-loaded table differs
from the original normalized table. -/
theorem round_trip_counterexample :
    load [rawWsCat] = some [gWs] ∧
    roundTrip [gWs] = some [{ gWs with category := CatCell.str naRender }] ∧
    roundTrip [gWs] ≠ some [gWs] :=
  ⟨by decide, by decide, by decide⟩

end Dashboard
